import Mathlib

/-!
Verification development for the torch-remote-exporter program (`main.go`).

The program polls a Torch Remote API and republishes fields as Prometheus
gauges.  We shallowly embed the pieces the specification talks about:

* the custom `Duration.UnmarshalJSON` decoder, including a faithful model of
  Go's `time.ParseDuration` (modern Go, `uint64` accumulator with the
  `1<<63` overflow checks) and of `strings.SplitN(value, ":", 3)`;
* `strconv.FormatInt(_, 10)` (decimal integer formatting);
* the five collector tasks (`doServerStatus`, `doGetGridCount`,
  `doGetBannedCount`, `doGetWorlds`, `doGetPlayersOnline`) as explicit state
  transformers over the gauge registry plus the `playersOnline` session map;
* the scheduler loop of `metricsLoop` (startup cycle, then one cycle per
  ticker tick, tasks run sequentially in the order of the `metrics` slice).

Modelling conventions, stated once:

* Machine integers are modelled as `Nat`/`Int` with the exact overflow
  comparisons that appear in the Go source (`1<<63` bounds in
  `ParseDuration`); `time.Time`/`time.Duration` values are `Int` nanoseconds.
* Gauge values are `float64` in Prometheus; no claim depends on float
  rounding, so gauge payloads are modelled as exact rationals (`Rat`).
  `math.Floor(d.Seconds())` for a duration of `d` nanoseconds is the exact
  integer `⌊d / 10^9⌋`, i.e. `Int.fdiv d (10^9)`, whenever the float
  computation is exact; we model it by that exact value.
* The one `float64` computation inside `ParseDuration`
  (`uint64(float64(f) * (float64(unit) / scale))` for fractional components)
  is modelled by the exact rational value `f * unit / scale` rounded down;
  for the small fractional inputs appearing in theorems below the float
  computation is exact, so the model agrees with Go there.
* `makeRequest` decodes the JSON body into a caller-supplied destination.
  Pointer-typed destinations (`*serverStatus`, `[]*playerStatus`,
  `*worldStatus`) are modelled as `Option`: `encoding/json` decodes the JSON
  literal `null` into a nil pointer without error.
* Collector tasks are modelled over a typed fetch environment `Env` that
  records, per endpoint, what `makeRequest` delivered (a transport/decode
  error, or the decoded value).  The JSON layer itself is modelled separately
  for the server-status endpoint (`serverStatusFetch`), which is the endpoint
  the decoding claims are about.
* Go map iteration order is unobservable in `doGetPlayersOnline` (the map is
  only iterated to build the `existingIds` set and to delete keys), so the
  session map is an association list with Go-map lookup/insert/delete
  semantics.
-/

/-! ## Decimal digits and `strconv.FormatInt(_, 10)` -/

/-- Value of a run of ASCII digit characters, most significant first,
accumulated onto `x` — the accumulation pattern of Go's `leadingInt`. -/
def digitsVal (x : Nat) (ds : List Char) : Nat :=
  ds.foldl (fun a c => a * 10 + (c.toNat - 48)) x

/-- The ASCII digit character for `n < 10`. -/
def digitChar (n : Nat) : Char := Char.ofNat (48 + n)

/-- Decimal digit characters of `n`, most significant first. -/
def natDigits (n : Nat) : List Char :=
  if _h : n < 10 then [digitChar n]
  else natDigits (n / 10) ++ [digitChar (n % 10)]
  decreasing_by exact Nat.div_lt_self (by omega) (by omega)

/-- Model of `strconv.FormatInt(i, 10)`: decimal representation, with a
leading minus sign for negative values. -/
def formatInt (i : Int) : String :=
  if i < 0 then ⟨'-' :: natDigits (-i).toNat⟩ else ⟨natDigits i.toNat⟩

/-! ## `strings.SplitN(s, ":", 3)` -/

/-- Split off the part of `s` before the first `':'`; `none` when `s` has no
colon.  This is the single splitting step of Go's `genSplit`. -/
def breakColon : List Char → Option (List Char × List Char)
  | [] => none
  | c :: rest =>
    if c = ':' then some ([], rest)
    else (breakColon rest).map (fun p => (c :: p.1, p.2))

/-- Model of `strings.SplitN(s, ":", 3)`: split around the first two colons,
keeping the remainder (which may itself contain colons) as the last part. -/
def splitN3 (s : List Char) : List (List Char) :=
  match breakColon s with
  | none => [s]
  | some (a, b) =>
    match breakColon b with
    | none => [a, b]
    | some (c, d) => [a, c, d]

/-! ## Go `time.ParseDuration` -/

/-- Model of Go's `leadingInt`: consume the leading `[0-9]*` of `s` onto the
accumulator `x`, failing (like `errLeadingInt`) when the accumulator would
exceed `1<<63`.  The two overflow comparisons are exactly Go's. -/
def leadingInt (x : Nat) : List Char → Option (Nat × List Char)
  | [] => some (x, [])
  | c :: rest =>
    if c.isDigit then
      if x > 9223372036854775808 / 10 then none
      else
        let y := x * 10 + (c.toNat - 48)
        if y > 9223372036854775808 then none
        else leadingInt y rest
    else some (x, c :: rest)

/-- Model of Go's `leadingFraction`: consume the digits after a decimal
point, returning the digit value, the scale (a power of ten, exact in
`float64` for every reachable magnitude, hence modelled as `Nat`), and the
remaining input.  Once the accumulator would overflow, further digits are
consumed but ignored, exactly as in Go. -/
def leadingFraction (x scale : Nat) (overflow : Bool) :
    List Char → Nat × Nat × List Char
  | [] => (x, scale, [])
  | c :: rest =>
    if c.isDigit then
      if overflow then leadingFraction x scale true rest
      else if x > 9223372036854775807 / 10 then leadingFraction x scale true rest
      else
        let y := x * 10 + (c.toNat - 48)
        if y > 9223372036854775808 then leadingFraction x scale true rest
        else leadingFraction y (scale * 10) false rest
    else (x, scale, c :: rest)

/-- The unit-consuming scan of `ParseDuration`: the unit token is the longest
prefix of characters that are neither digits nor `'.'`. -/
def spanUnit : List Char → List Char × List Char
  | [] => ([], [])
  | c :: rest =>
    if !(c.isDigit || c == '.') then
      let r := spanUnit rest
      (c :: r.1, r.2)
    else ([], c :: rest)

/-- Go's `unitMap`: nanoseconds per unit token. -/
def unitLookup (u : List Char) : Option Nat :=
  match String.mk u with
  | "ns" => some 1
  | "us" => some 1000
  | "µs" => some 1000
  | "μs" => some 1000
  | "ms" => some 1000000
  | "s" => some 1000000000
  | "m" => some 60000000000
  | "h" => some 3600000000000
  | _ => none

/-- Error outcomes of `ParseDuration` (messages abbreviated to their kind;
no claim depends on the message text). -/
inductive DurParseErr where
  | invalid
  | missingUnit
  | unknownUnit
deriving DecidableEq, Repr

/-- The main loop of Go's `ParseDuration`: repeatedly consume
`[0-9]*(\.[0-9]*)?unit`, accumulating nanoseconds in `d` with the `1<<63`
overflow checks of the Go source.  `fuel` bounds the number of iterations;
every successful iteration consumes at least two characters, so the
`s.length + 1` fuel supplied by `parseDuration` never runs out (the `fuel = 0`
branch is unreachable). -/
def parseLoop : Nat → Nat → List Char → Except DurParseErr Nat
  | 0, _, _ => .error .invalid
  | _ + 1, d, [] => .ok d
  | fuel + 1, d, c :: cs =>
    if !(c == '.' || c.isDigit) then .error .invalid
    else
      match leadingInt 0 (c :: cs) with
      | none => .error .invalid
      | some (v, s1) =>
        let pre : Bool := s1.length != (c :: cs).length
        let q :=
          match s1 with
          | c1 :: t =>
            if c1 = '.' then
              let r := leadingFraction 0 1 false t
              (r.1, r.2.1, r.2.2, (r.2.2.length != t.length : Bool))
            else (0, 1, s1, false)
          | [] => (0, 1, s1, false)
        if !pre && !q.2.2.2 then .error .invalid
        else
          let us := spanUnit q.2.2.1
          if us.1.isEmpty then .error .missingUnit
          else
            match unitLookup us.1 with
            | none => .error .unknownUnit
            | some unit =>
              if v > 9223372036854775808 / unit then .error .invalid
              else
                let v1 := v * unit
                let v2 := if q.1 > 0 then v1 + q.1 * unit / q.2.1 else v1
                if q.1 > 0 && v2 > 9223372036854775808 then .error .invalid
                else
                  let d1 := d + v2
                  if d1 > 9223372036854775808 then .error .invalid
                  else parseLoop fuel d1 us.2

/-- Model of Go's `time.ParseDuration`, producing `Int` nanoseconds: optional
sign, the `"0"` special case, then the unit loop, with the final
`d > 1<<63-1` check for non-negative results (the negative return happens
before that check, exactly as in Go). -/
def parseDuration (s0 : List Char) : Except DurParseErr Int :=
  let p :=
    match s0 with
    | c :: t =>
      if c = '-' then (true, t)
      else if c = '+' then (false, t)
      else (false, s0)
    | [] => (false, s0)
  if p.2 = ['0'] then .ok 0
  else if p.2 = [] then .error .invalid
  else
    match parseLoop (p.2.length + 1) 0 p.2 with
    | .error e => .error e
    | .ok d =>
      if p.1 then .ok (-(d : Int))
      else if d > 9223372036854775807 then .error .invalid
      else .ok (d : Int)

/-! ## JSON values and `Duration.UnmarshalJSON` -/

/-- Parsed JSON values, as produced by `json.Unmarshal` into `interface{}`.
Number payloads are modelled as exact rationals (`encoding/json` uses
`float64`; no claim depends on float rounding). -/
inductive Json where
  | null
  | bool (b : Bool)
  | num (q : Rat)
  | str (s : String)
  | arr (xs : List Json)
  | obj (fields : List (String × Json))

/-- `time.Duration`: `int64` nanoseconds. -/
abbrev Duration := Int

/-- Errors of the duration decoder: `"invalid duration"` for a non-string
JSON value, `"duration had unexpected format"` for a split that does not give
three parts, or a `ParseDuration` error. -/
inductive DurErr where
  | notString
  | badFormat
  | parse (e : DurParseErr)
deriving DecidableEq, Repr

/-- Model of `(*Duration).UnmarshalJSON` on an already-parsed JSON value:
only strings are accepted; the string is split by `strings.SplitN(v, ":", 3)`
into exactly three parts, rewritten to `"<h>h<m>m<s>s"` and handed to
`time.ParseDuration`. -/
def Duration.UnmarshalJSON (j : Json) : Except DurErr Duration :=
  match j with
  | .str v =>
    match splitN3 v.data with
    | [p0, p1, p2] =>
      match parseDuration (p0 ++ ['h'] ++ p1 ++ ['m'] ++ p2 ++ ['s']) with
      | .error e => .error (.parse e)
      | .ok d => .ok d
    | _ => .error .badFormat
  | _ => .error .notString

/-! ## Wire data structures (`main.go` types) -/

/-- `serverStatus` from `main.go`; `Uptime` is decoded through
`Duration.UnmarshalJSON`, `Status` is the `StatusEnum` integer. -/
structure serverStatus where
  SimSpeed : Rat
  MemberCount : Int
  Uptime : Duration
  Status : Int
deriving DecidableEq

/-- `playerStatus` from `main.go`. -/
structure playerStatus where
  ClientID : Int
  Name : String
  PromoteLevel : Int
deriving DecidableEq

/-- `worldStatus` from `main.go`. -/
structure worldStatus where
  Name : String
  SizeKb : Int
deriving DecidableEq

/-! ## The JSON decoding layer of `makeRequest` (server-status endpoint) -/

/-- Decode errors of `encoding/json` (kind only; no claim depends on the
message text). -/
inductive DecodeErr where
  | typeMismatch
  | duration (e : DurErr)
deriving DecidableEq, Repr

/-- `encoding/json` unmarshalling of a JSON number into an integer field:
fails on a fractional number. -/
def jsonToInt (q : Rat) : Except DecodeErr Int :=
  if q.den = 1 then .ok q.num else .error .typeMismatch

/-- `encoding/json` unmarshalling of a JSON value into a (non-pointer)
`serverStatus` struct: an object whose known keys set the corresponding
fields (unknown keys ignored, missing fields keep their zero value, a later
duplicate key overwrites); any other JSON kind is a type mismatch.  The
`uptime` field goes through `Duration.UnmarshalJSON`. -/
def decodeServerStatusObj (j : Json) : Except DecodeErr serverStatus :=
  match j with
  | .obj fields =>
    fields.foldlM
      (fun st kv =>
        match kv.1, kv.2 with
        | "simSpeed", .num q => .ok { st with SimSpeed := q }
        | "simSpeed", _ => .error .typeMismatch
        | "memberCount", .num q => (jsonToInt q).map (fun n => { st with MemberCount := n })
        | "memberCount", _ => .error .typeMismatch
        | "uptime", jv =>
          match Duration.UnmarshalJSON jv with
          | .ok d => .ok { st with Uptime := d }
          | .error e => .error (.duration e)
        | "status", .num q => (jsonToInt q).map (fun n => { st with Status := n })
        | "status", _ => .error .typeMismatch
        | _, _ => .ok st)
      ⟨0, 0, 0, 0⟩
  | _ => .error .typeMismatch

/-- `encoding/json` unmarshalling into a pointer-typed destination: the JSON
literal `null` yields a nil pointer (`none`) with **no** error; any other
value is decoded by `dec` and wrapped. -/
def unmarshalPtr (dec : Json → Except DecodeErr α) : Json → Except DecodeErr (Option α)
  | .null => .ok none
  | j => (dec j).map some

/-- An HTTP response as seen by `makeRequest`: a status code and a JSON body. -/
structure HttpResp where
  status : Nat
  body : Json

/-- Errors reported by `makeRequest`: transport failure from
`http.DefaultClient.Do`, or a decode failure from `json.Decoder.Decode`. -/
inductive ReqErr where
  | transport
  | decode (e : DecodeErr)
deriving DecidableEq, Repr

/-- Decidable equality for fetch results (used only to evaluate the model on
concrete fixtures). -/
instance [DecidableEq ε] [DecidableEq α] : DecidableEq (Except ε α) := fun a b =>
  match a, b with
  | .error e1, .error e2 =>
    match decEq e1 e2 with
    | isTrue h => isTrue (h ▸ rfl)
    | isFalse h => isFalse fun hh => h (Except.error.inj hh)
  | .ok v1, .ok v2 =>
    match decEq v1 v2 with
    | isTrue h => isTrue (h ▸ rfl)
    | isFalse h => isFalse fun hh => h (Except.ok.inj hh)
  | .error _, .ok _ => isFalse fun hh => Except.noConfusion hh
  | .ok _, .error _ => isFalse fun hh => Except.noConfusion hh

/-- Model of `makeRequest(path, dest)`: a transport error propagates; on a
response, the body is decoded into the destination.  The response status code
is never consulted. -/
def makeRequest (dec : Json → Except DecodeErr α) :
    Except Unit HttpResp → Except ReqErr α
  | .error _ => .error .transport
  | .ok r =>
    match dec r.body with
    | .error e => .error (.decode e)
    | .ok v => .ok v

/-- The fetch+decode pipeline of `doServerStatus`: destination
`**serverStatus`, so a `null` body yields `ok none` (a nil pointer). -/
def serverStatusFetch (resp : Except Unit HttpResp) :
    Except ReqErr (Option serverStatus) :=
  makeRequest (unmarshalPtr decodeServerStatusObj) resp

/-! ## Gauge registry state and association-list primitives -/

/-- First-match association-list lookup (Go map indexing; keys are unique in
a Go map, and our insertions preserve that). -/
def lookupA [DecidableEq α] : List (α × β) → α → Option β
  | [], _ => none
  | e :: rest, k => if e.1 = k then some e.2 else lookupA rest k

/-- Set the value for a key, replacing an existing entry or appending
(`GaugeVec.WithLabelValues(...).Set`, Go map assignment). -/
def setA [DecidableEq α] : List (α × β) → α → β → List (α × β)
  | [], k, v => [(k, v)]
  | e :: rest, k, v => if e.1 = k then (k, v) :: rest else e :: setA rest k v

/-- Delete a key (`delete(m, k)`). -/
def eraseA [DecidableEq α] (m : List (α × β)) (k : α) : List (α × β) :=
  m.filter (fun e => e.1 ≠ k)

/-- Delete every key in `ks` (the final `for k := range existingIds` loop;
deletion order is immaterial). -/
def eraseKeys [DecidableEq α] (m : List (α × β)) (ks : List α) : List (α × β) :=
  ks.foldl eraseA m

/-- The key list of an association list (`for k := range m`). -/
def mapKeys (m : List (α × β)) : List α := m.map (·.1)

/-- `math.Floor(d.Seconds())` for `d` nanoseconds: exact floor of `d / 10^9`. -/
def durSecondsFloor (d : Int) : Int := Int.fdiv d 1000000000

/-- The whole mutable state of the process: one field per registered gauge
(scalar gauges start at 0; labeled gauge vectors and the session map start
empty), plus the package-level `playersOnline` session map
(client ID ↦ join time, nanoseconds). -/
structure SysState where
  metricSimSpeed : Rat
  metricPlayerCount : Rat
  metricGameReady : Rat
  metricUptime : Rat
  metricGridCount : Rat
  metricBannedCount : Rat
  metricWorldSize : List (String × Rat)
  metricPlayersOnline : List ((String × String) × Rat)
  playersOnline : List (Int × Int)
deriving DecidableEq

/-- Process state at startup. -/
def initState : SysState :=
  { metricSimSpeed := 0, metricPlayerCount := 0, metricGameReady := 0
    metricUptime := 0, metricGridCount := 0, metricBannedCount := 0
    metricWorldSize := [], metricPlayersOnline := [], playersOnline := [] }

/-! ## The typed fetch environment and the collector tasks -/

/-- What `makeRequest` delivers to each task during one cycle: per endpoint,
either an error or the decoded value (with `Option` for pointer-typed
destinations, which can be nil after a `null` body), plus the `time.Now()`
capture of the cycle (nanoseconds). -/
structure Env where
  serverStatus : Except ReqErr (Option serverStatus)
  grids : Except ReqErr (List Int)
  banned : Except ReqErr (List Int)
  worlds : Except ReqErr (List String)
  worldDetail : String → Except ReqErr (Option worldStatus)
  players : Except ReqErr (List (Option playerStatus))
  now : Int

/-- Outcome of one collector task: normal return `nil`, an error return, or
a runtime panic (nil-pointer dereference), which crashes the process. -/
inductive TaskOut where
  | ok
  | err (e : ReqErr)
  | panicked
deriving DecidableEq, Repr

/-- `doServerStatus`: on success sets the four scalar gauges
(`metricUptime` gets `Uptime.Seconds()`, i.e. nanoseconds over 10^9); a nil
`*serverStatus` (decoded from a `null` body) panics at `status.SimSpeed`. -/
def doServerStatus (env : Env) (st : SysState) : TaskOut × SysState :=
  match env.serverStatus with
  | .error e => (.err e, st)
  | .ok none => (.panicked, st)
  | .ok (some s) =>
    (.ok, { st with
      metricSimSpeed := s.SimSpeed
      metricPlayerCount := (s.MemberCount : Rat)
      metricGameReady := (s.Status : Rat)
      metricUptime := (s.Uptime : Rat) / 1000000000 })

/-- `doGetGridCount`: grid-count gauge := length of the fetched ID list. -/
def doGetGridCount (env : Env) (st : SysState) : TaskOut × SysState :=
  match env.grids with
  | .error e => (.err e, st)
  | .ok ids => (.ok, { st with metricGridCount := (ids.length : Rat) })

/-- `doGetBannedCount`: banned-count gauge := length of the fetched list. -/
def doGetBannedCount (env : Env) (st : SysState) : TaskOut × SysState :=
  match env.banned with
  | .error e => (.err e, st)
  | .ok ids => (.ok, { st with metricBannedCount := (ids.length : Rat) })

/-- The per-world loop of `doGetWorlds`: fetch each world's detail in list
order; an error returns immediately (keeping the gauge writes already made);
a nil `*worldStatus` panics at `world.Name`; otherwise the labeled world-size
gauge is set.  There is no reset of previously present labels. -/
def worldsLoop (dtl : String → Except ReqErr (Option worldStatus))
    (g : List (String × Rat)) : List String → TaskOut × List (String × Rat)
  | [] => (.ok, g)
  | id :: rest =>
    match dtl id with
    | .error e => (.err e, g)
    | .ok none => (.panicked, g)
    | .ok (some w) => worldsLoop dtl (setA g w.Name (w.SizeKb : Rat)) rest

/-- `doGetWorlds`: fetch the world-ID list, then run the per-world loop. -/
def doGetWorlds (env : Env) (st : SysState) : TaskOut × SysState :=
  match env.worlds with
  | .error e => (.err e, st)
  | .ok ids =>
    let r := worldsLoop env.worldDetail st.metricWorldSize ids
    (r.1, { st with metricWorldSize := r.2 })

/-- The loop state of `doGetPlayersOnline`: the session map being updated,
the `existingIds` set of previously tracked IDs not yet seen this poll, and
the players-online gauge vector (already `Reset()`). -/
structure PState where
  sess : List (Int × Int)
  existing : List Int
  gauge : List ((String × String) × Rat)
deriving DecidableEq

/-- One iteration of the player loop for a non-nil `*playerStatus`: a new
client ID is inserted with join time `now`; a tracked one keeps its join time
and is removed from `existingIds`; either way one labeled sample
`(Name, FormatInt(ClientID, 10)) ↦ ⌊(now − joined)/10^9⌋` is set. -/
def playersStep (now : Int) (st : PState) (p : playerStatus) : PState :=
  match lookupA st.sess p.ClientID with
  | none =>
    { sess := st.sess ++ [(p.ClientID, now)]
      existing := st.existing
      gauge := setA st.gauge (p.Name, formatInt p.ClientID)
        ((durSecondsFloor (now - now) : Int) : Rat) }
  | some joined =>
    { sess := st.sess
      existing := st.existing.filter (fun k => k ≠ p.ClientID)
      gauge := setA st.gauge (p.Name, formatInt p.ClientID)
        ((durSecondsFloor (now - joined) : Int) : Rat) }

/-- The player loop over the fetched `[]*playerStatus`: a nil entry panics at
`p.ClientID` (mutations made so far persist; the trailing eviction pass never
runs). -/
def playersLoopP (now : Int) (st : PState) :
    List (Option playerStatus) → Bool × PState
  | [] => (false, st)
  | none :: _ => (true, st)
  | some p :: rest => playersLoopP now (playersStep now st p) rest

/-- `doGetPlayersOnline`: on fetch success, capture `now` once, `Reset()` the
players gauge vector, snapshot the tracked IDs into `existingIds`, run the
player loop, then evict every ID still in `existingIds` from the session
map. -/
def doGetPlayersOnline (env : Env) (st : SysState) : TaskOut × SysState :=
  match env.players with
  | .error e => (.err e, st)
  | .ok ps =>
    let st0 : PState :=
      { sess := st.playersOnline, existing := mapKeys st.playersOnline, gauge := [] }
    let r := playersLoopP env.now st0 ps
    if r.1 then
      (.panicked, { st with metricPlayersOnline := r.2.gauge, playersOnline := r.2.sess })
    else
      (.ok, { st with
        metricPlayersOnline := r.2.gauge
        playersOnline := eraseKeys r.2.sess r.2.existing })

/-! ## The scheduler (`metrics` slice and `metricsLoop`) -/

/-- The `metrics` slice: the five collector tasks in source order, tagged
with their names for the execution trace. -/
def metrics : List (String × (Env → SysState → TaskOut × SysState)) :=
  [("doServerStatus", doServerStatus),
   ("doGetGridCount", doGetGridCount),
   ("doGetBannedCount", doGetBannedCount),
   ("doGetWorlds", doGetWorlds),
   ("doGetPlayersOnline", doGetPlayersOnline)]

/-- The names of the five tasks in execution order. -/
def taskNames : List String :=
  ["doServerStatus", "doGetGridCount", "doGetBannedCount",
   "doGetWorlds", "doGetPlayersOnline"]

/-- Result of one cycle: whether some task panicked (crashing the process),
the state after the last task that ran, and the names of the tasks that ran. -/
structure CycleResult where
  panicked : Bool
  state : SysState
  ran : List String
deriving DecidableEq

/-- The per-cycle loop body of `metricsLoop`: run each task in slice order; a
task's error return is logged and the loop continues; a panic aborts the
process. -/
def cycleAux (env : Env) : SysState → List String →
    List (String × (Env → SysState → TaskOut × SysState)) → CycleResult
  | st, ran, [] => ⟨false, st, ran⟩
  | st, ran, t :: rest =>
    match t.2 env st with
    | (.panicked, st1) => ⟨true, st1, ran ++ [t.1]⟩
    | (_, st1) => cycleAux env st1 (ran ++ [t.1]) rest

/-- One full cycle over the `metrics` slice. -/
def cycleRun (env : Env) (st : SysState) : CycleResult :=
  cycleAux env st [] metrics

/-- `metricsLoop` states, indexed by cycle count: cycle 0 runs immediately at
startup from `initState` (before the first ticker tick); cycle `n+1` runs on
the `n+1`-st tick.  `none` means the process crashed on a panic. -/
def schedState (envs : Nat → Env) : Nat → Option SysState
  | 0 =>
    let r := cycleRun (envs 0) initState
    if r.panicked then none else some r.state
  | n + 1 =>
    match schedState envs n with
    | none => none
    | some st =>
      let r := cycleRun (envs (n + 1)) st
      if r.panicked then none else some r.state

/-- Observable scheduler events: a ticker tick, or a task starting to run. -/
inductive Event where
  | tick
  | ran (name : String)
deriving DecidableEq

/-- The event trace of `metricsLoop` through cycle `n`: the startup cycle's
task events (no tick before them), then `tick` followed by that cycle's task
events, per tick; nothing more after a crash. -/
def schedTrace (envs : Nat → Env) : Nat → List Event
  | 0 => (cycleRun (envs 0) initState).ran.map .ran
  | n + 1 =>
    match schedState envs n with
    | none => schedTrace envs n
    | some st =>
      schedTrace envs n ++ Event.tick :: (cycleRun (envs (n + 1)) st).ran.map .ran

/-! ## Spec-side reference trace and concrete fixtures -/

/-- The event trace the specification prescribes for `n` ticks: the startup
cycle's five tasks in order, then, per tick, a `tick` followed by the five
tasks in order. -/
def fullTrace : Nat → List Event
  | 0 => taskNames.map Event.ran
  | n + 1 => fullTrace n ++ Event.tick :: taskNames.map Event.ran

/-- A cycle environment in which every fetch fails with a transport error. -/
def baseEnv : Env :=
  { serverStatus := .error .transport, grids := .error .transport
    banned := .error .transport, worlds := .error .transport
    worldDetail := fun _ => .error .transport, players := .error .transport
    now := 0 }

/-- World-detail responses where world `"a"` succeeds and world `"b"` fails. -/
def dtlC4 : String → Except ReqErr (Option worldStatus) :=
  fun i => if i = "a" then .ok (some ⟨"Alpha", 100⟩) else .error .transport

/-- Worlds task environment whose per-world detail fetch fails partway
through the ID list. -/
def envC4 : Env := { baseEnv with worlds := .ok ["a", "b"], worldDetail := dtlC4 }

/-- First worlds poll: one world `"w1"` named `"Alpha"` of size 100. -/
def envC5a : Env :=
  { baseEnv with
    worlds := .ok ["w1"]
    worldDetail := fun i => if i = "w1" then .ok (some ⟨"Alpha", 100⟩) else .error .transport }

/-- Second worlds poll: one world `"w2"` named `"Beta"` of size 50; no
`"Alpha"` any more. -/
def envC5b : Env :=
  { baseEnv with
    worlds := .ok ["w2"]
    worldDetail := fun i => if i = "w2" then .ok (some ⟨"Beta", 50⟩) else .error .transport }

/-- State after the two worlds polls of the stale-label scenario. -/
def stC5 : SysState := (doGetWorlds envC5b (doGetWorlds envC5a initState).2).2

/-- Cycle environment in which the first task fails but the remaining
endpoints respond. -/
def envC6 : Env :=
  { baseEnv with
    grids := .ok [1, 2, 3]
    banned := .ok []
    worlds := .ok []
    players := .ok [] }

/-- A well-formed server-status JSON body. -/
def body500 : Json :=
  .obj [("simSpeed", .num 1), ("memberCount", .num 5),
        ("uptime", .str "1:00:00"), ("status", .num 2)]

/-- Player-poll environment: a single player with client ID 5 at capture time
10^9 ns. -/
def envC1 : Env :=
  { baseEnv with players := .ok [some ⟨5, "A", 0⟩], now := 1000000000 }

/-- Prior state for the player-poll fixture: client 7 tracked since time 100. -/
def stC1 : SysState := { initState with playersOnline := [(7, 100)] }

/-! # Lemmas -/

/-! ## Digit strings and `formatInt` -/

theorem digitsVal_cons (x : Nat) (c : Char) (ds : List Char) :
    digitsVal x (c :: ds) = digitsVal (x * 10 + (c.toNat - 48)) ds := rfl

theorem digitsVal_append (x : Nat) (a b : List Char) :
    digitsVal x (a ++ b) = digitsVal (digitsVal x a) b := by
  simp [digitsVal, List.foldl_append]

theorem le_digitsVal (x : Nat) (ds : List Char) : x ≤ digitsVal x ds := by
  induction ds generalizing x with
  | nil => simp [digitsVal]
  | cons c t ih =>
    rw [digitsVal_cons]
    exact le_trans (by omega) (ih (x * 10 + (c.toNat - 48)))

theorem digitChar_toNat {n : Nat} (h : n < 10) : (digitChar n).toNat = 48 + n := by
  interval_cases n <;> rfl

theorem digitChar_isDigit {n : Nat} (h : n < 10) : (digitChar n).isDigit = true := by
  interval_cases n <;> decide

theorem natDigits_ne_nil (n : Nat) : natDigits n ≠ [] := by
  rw [natDigits]
  split <;> simp

theorem natDigits_digits (n : Nat) : ∀ c ∈ natDigits n, c.isDigit = true := by
  induction n using Nat.strong_induction_on with
  | _ n ih =>
    rw [natDigits]
    split
    case isTrue h =>
      intro c hc
      simp only [List.mem_singleton] at hc
      subst hc
      exact digitChar_isDigit h
    case isFalse h =>
      intro c hc
      rw [List.mem_append, List.mem_singleton] at hc
      rcases hc with hc | hc
      · exact ih (n / 10) (Nat.div_lt_self (by omega) (by omega)) c hc
      · subst hc
        exact digitChar_isDigit (Nat.mod_lt _ (by omega))

theorem digitsVal_natDigits (n : Nat) : digitsVal 0 (natDigits n) = n := by
  induction n using Nat.strong_induction_on with
  | _ n ih =>
    rw [natDigits]
    split
    case isTrue h =>
      simp [digitsVal, digitChar_toNat h]
    case isFalse h =>
      rw [digitsVal_append, ih (n / 10) (Nat.div_lt_self (by omega) (by omega))]
      have hm : (digitChar (n % 10)).toNat = 48 + n % 10 :=
        digitChar_toNat (Nat.mod_lt _ (by omega))
      simp only [digitsVal, List.foldl_cons, List.foldl_nil, hm]
      omega

theorem natDigits_inj {a b : Nat} (h : natDigits a = natDigits b) : a = b := by
  rw [← digitsVal_natDigits a, ← digitsVal_natDigits b, h]

theorem formatInt_inj {a b : Int} (h : formatInt a = formatInt b) : a = b := by
  have hdata : (formatInt a).data = (formatInt b).data := by rw [h]
  unfold formatInt at hdata
  have hdash : ('-').isDigit = false := by decide
  split at hdata <;> split at hdata <;>
    simp only [String.data] at hdata
  case isTrue.isTrue ha hb =>
    rw [List.cons.injEq] at hdata
    have := natDigits_inj hdata.2
    omega
  case isTrue.isFalse ha hb =>
    rcases hne : natDigits b.toNat with _ | ⟨c, t⟩
    · exact absurd hne (natDigits_ne_nil _)
    · rw [hne, List.cons.injEq] at hdata
      have hc : c.isDigit = true := natDigits_digits b.toNat c (by rw [hne]; simp)
      rw [← hdata.1] at hc
      rw [hdash] at hc
      cases hc
  case isFalse.isTrue ha hb =>
    rcases hne : natDigits a.toNat with _ | ⟨c, t⟩
    · exact absurd hne (natDigits_ne_nil _)
    · rw [hne, List.cons.injEq] at hdata
      have hc : c.isDigit = true := natDigits_digits a.toNat c (by rw [hne]; simp)
      rw [hdata.1] at hc
      rw [hdash] at hc
      cases hc
  case isFalse.isFalse ha hb =>
    have := natDigits_inj hdata
    omega

/-! ## Association-list operations -/

theorem lookupA_eq_none_iff [DecidableEq α] (m : List (α × β)) (k : α) :
    lookupA m k = none ↔ k ∉ mapKeys m := by
  induction m with
  | nil => simp [lookupA, mapKeys]
  | cons e t ih =>
    by_cases he : e.1 = k
    · simp [lookupA, mapKeys, he]
    · simp [lookupA, mapKeys, he, ih, Ne.symm he]

theorem lookupA_setA [DecidableEq α] (m : List (α × β)) (k k' : α) (v : β) :
    lookupA (setA m k v) k' = if k = k' then some v else lookupA m k' := by
  induction m with
  | nil =>
    by_cases hk : k = k' <;> simp [setA, lookupA, hk]
  | cons e t ih =>
    by_cases he : e.1 = k
    · by_cases hk : k = k'
      · simp [setA, lookupA, he, hk]
      · simp [setA, lookupA, he, hk]
    · by_cases hek : e.1 = k'
      · have h1 : ¬ k = k' := fun hh => he (by rw [hh, hek])
        have h2 : ¬ k' = k := fun hh => h1 hh.symm
        simp [setA, lookupA, he, hek, h1, h2]
      · simp [setA, lookupA, he, hek, ih]

theorem lookupA_append_single [DecidableEq α] (m : List (α × β)) (k : α) (v : β) (k' : α) :
    lookupA (m ++ [(k, v)]) k' =
      match lookupA m k' with
      | some w => some w
      | none => if k = k' then some v else none := by
  induction m with
  | nil => by_cases hk : k = k' <;> simp [lookupA, hk]
  | cons e t ih =>
    by_cases he : e.1 = k' <;> simp [lookupA, he, ih]

theorem mapKeys_append_single (m : List (α × β)) (k : α) (v : β) :
    mapKeys (m ++ [(k, v)]) = mapKeys m ++ [k] := by
  simp [mapKeys]

theorem lookupA_eraseA [DecidableEq α] (m : List (α × β)) (k k' : α) :
    lookupA (eraseA m k) k' = if k' = k then none else lookupA m k' := by
  induction m with
  | nil => by_cases hk : k' = k <;> simp [eraseA, lookupA, hk]
  | cons e t ih =>
    by_cases he : e.1 = k
    · have hdrop : eraseA (e :: t) k = eraseA t k := by simp [eraseA, he]
      rw [hdrop, ih]
      by_cases hk : k' = k
      · simp [hk]
      · have h1 : ¬ e.1 = k' := fun hh => hk (by rw [← hh, he])
        simp [lookupA, hk, h1]
    · have hkeep : eraseA (e :: t) k = e :: eraseA t k := by simp [eraseA, he]
      rw [hkeep]
      by_cases hek : e.1 = k'
      · have hk : ¬ k' = k := fun hh => he (hek.trans hh)
        simp [lookupA, hek, hk]
      · simp [lookupA, hek, ih]

theorem lookupA_eraseKeys [DecidableEq α] (ks : List α) (m : List (α × β)) (k : α) :
    lookupA (eraseKeys m ks) k = if k ∈ ks then none else lookupA m k := by
  induction ks generalizing m with
  | nil => simp [eraseKeys]
  | cons a t ih =>
    have step : eraseKeys m (a :: t) = eraseKeys (eraseA m a) t := rfl
    rw [step, ih]
    by_cases hk : k ∈ t
    · simp [hk]
    · by_cases hka : k = a <;> simp [hk, hka, lookupA_eraseA]

theorem mapKeys_sublist_eraseA [DecidableEq α] (m : List (α × β)) (k : α) :
    (mapKeys (eraseA m k)).Sublist (mapKeys m) :=
  List.Sublist.map _ (List.filter_sublist m)

theorem nodup_eraseKeys [DecidableEq α] (ks : List α) (m : List (α × β))
    (h : (mapKeys m).Nodup) : (mapKeys (eraseKeys m ks)).Nodup := by
  induction ks generalizing m with
  | nil => exact h
  | cons a t ih =>
    exact ih (eraseA m a) (List.Nodup.sublist (mapKeys_sublist_eraseA m a) h)

/-! ## `SplitN` structure -/

theorem breakColon_append (a t : List Char) (ha : ':' ∉ a) :
    breakColon (a ++ ':' :: t) = some (a, t) := by
  induction a with
  | nil => simp [breakColon]
  | cons c a0 ih =>
    have hc : ¬ c = ':' := fun hh => ha (by simp [hh])
    simp only [List.cons_append, breakColon, hc, if_false, List.append_eq]
    rw [ih (fun hh => ha (by simp [hh]))]
    rfl

theorem breakColon_none (s : List Char) (h : ':' ∉ s) : breakColon s = none := by
  induction s with
  | nil => rfl
  | cons c t ih =>
    have hc : ¬ c = ':' := fun hh => h (by simp [hh])
    simp [breakColon, hc, ih (fun hh => h (by simp [hh]))]

theorem breakColon_some (s : List Char) :
    ∀ a t, breakColon s = some (a, t) → s = a ++ ':' :: t ∧ ':' ∉ a := by
  induction s with
  | nil => intro a t h; simp [breakColon] at h
  | cons c s0 ih =>
    intro a t h
    by_cases hc : c = ':'
    · simp only [breakColon, hc, if_true, Option.some.injEq, Prod.mk.injEq] at h
      obtain ⟨rfl, rfl⟩ := h
      subst hc
      exact ⟨rfl, by simp⟩
    · simp only [breakColon, hc, if_false] at h
      cases hb : breakColon s0 with
      | none => rw [hb] at h; simp at h
      | some p =>
        rw [hb] at h
        simp only [Option.map_some', Option.some.injEq, Prod.mk.injEq] at h
        obtain ⟨ha, ht⟩ := h
        obtain ⟨h1, h2⟩ := ih p.1 p.2 (by rw [hb])
        subst ha
        subst ht
        constructor
        · rw [h1]
          simp
        · simp only [List.mem_cons]
          rintro (hh | hh)
          · exact hc hh.symm
          · exact h2 hh

theorem splitN3_three (a b c : List Char) (ha : ':' ∉ a) (hb : ':' ∉ b) :
    splitN3 (a ++ ':' :: (b ++ ':' :: c)) = [a, b, c] := by
  have h1 : breakColon (a ++ ':' :: (b ++ ':' :: c)) = some (a, b ++ ':' :: c) :=
    breakColon_append a (b ++ ':' :: c) ha
  have h2 : breakColon (b ++ ':' :: c) = some (b, c) :=
    breakColon_append b c hb
  simp [splitN3, h1, h2]

theorem splitN3_short (s : List Char) (h : s.count ':' < 2) :
    splitN3 s = [s] ∨ ∃ a b, splitN3 s = [a, b] := by
  cases hb : breakColon s with
  | none => left; simp [splitN3, hb]
  | some p =>
    right
    obtain ⟨hs, hna⟩ := breakColon_some s p.1 p.2 (by rw [hb])
    have hc1 : p.1.count ':' = 0 := List.count_eq_zero.mpr hna
    have hcount : p.2.count ':' = 0 := by
      rw [hs, List.count_append] at h
      simp only [List.count_cons_self, hc1] at h
      omega
    have hnb : ':' ∉ p.2 := List.count_eq_zero.mp hcount
    exact ⟨p.1, p.2, by simp [splitN3, hb, breakColon_none p.2 hnb]⟩

/-! ## `leadingInt` on digit runs -/

theorem leadingInt_digits (ds : List Char) : ∀ (x : Nat) (rest : List Char),
    (∀ c ∈ ds, c.isDigit = true) →
    (rest = [] ∨ ∃ c t, rest = c :: t ∧ c.isDigit = false) →
    digitsVal x ds ≤ 9223372036854775808 →
    leadingInt x (ds ++ rest) = some (digitsVal x ds, rest) := by
  induction ds with
  | nil =>
    intro x rest _ hrest _
    rcases hrest with rfl | ⟨c, t, rfl, hc⟩
    · rfl
    · simp [leadingInt, hc, digitsVal]
  | cons c ds0 ih =>
    intro x rest hds hrest hbound
    have hc : c.isDigit = true := hds c (by simp)
    rw [digitsVal_cons] at hbound ⊢
    have hy : x * 10 + (c.toNat - 48) ≤ 9223372036854775808 :=
      le_trans (le_digitsVal _ _) hbound
    have hx10 : x ≤ 9223372036854775808 / 10 :=
      (Nat.le_div_iff_mul_le (by norm_num)).mpr (by omega)
    simp only [List.cons_append, leadingInt, hc, if_true]
    rw [if_neg (by omega : ¬ x > 9223372036854775808 / 10)]
    rw [if_neg (by omega : ¬ x * 10 + (c.toNat - 48) > 9223372036854775808)]
    exact ih _ rest (fun d hd => hds d (by simp [hd])) hrest hbound

/-! ## One `ParseDuration` loop iteration on an integer component -/

theorem spanUnit_single (u : Char) (rest : List Char)
    (hud : u.isDigit = false) (hudot : u ≠ '.')
    (hrest : rest = [] ∨ ∃ c t, rest = c :: t ∧ (c.isDigit = true ∨ c = '.')) :
    spanUnit (u :: rest) = ([u], rest) := by
  have hbeq : (u == '.') = false := by simp [hudot]
  rcases hrest with rfl | ⟨c, t, rfl, hc⟩
  · simp [spanUnit, hud, hbeq]
  · rcases hc with hc | rfl
    · simp [spanUnit, hud, hbeq, hc]
    · simp [spanUnit, hud, hbeq]

theorem parseLoop_step (fuel d : Nat) (ds : List Char) (u : Char) (unit : Nat)
    (rest : List Char)
    (hds : ∀ c ∈ ds, c.isDigit = true) (hne : ds ≠ [])
    (hu : unitLookup [u] = some unit) (hud : u.isDigit = false) (hudot : u ≠ '.')
    (hrest : rest = [] ∨ ∃ c t, rest = c :: t ∧ (c.isDigit = true ∨ c = '.'))
    (hv : digitsVal 0 ds ≤ 9223372036854775808 / unit)
    (hdd : d + digitsVal 0 ds * unit ≤ 9223372036854775808)
    (_hpos : 0 < unit) :
    parseLoop (fuel + 1) d (ds ++ u :: rest) =
      parseLoop fuel (d + digitsVal 0 ds * unit) rest := by
  obtain ⟨c, ds0, rfl⟩ : ∃ c ds0, ds = c :: ds0 := by
    cases ds with
    | nil => exact absurd rfl hne
    | cons c ds0 => exact ⟨c, ds0, rfl⟩
  have hc : c.isDigit = true := hds c (by simp)
  have hli : leadingInt 0 ((c :: ds0) ++ u :: rest) =
      some (digitsVal 0 (c :: ds0), u :: rest) :=
    leadingInt_digits (c :: ds0) 0 (u :: rest) hds
      (Or.inr ⟨u, rest, rfl, hud⟩)
      (le_trans hv (Nat.div_le_self _ _))
  have hspan : spanUnit (u :: rest) = ([u], rest) :=
    spanUnit_single u rest hud hudot hrest
  have hpre : (((u :: rest).length != (c :: (ds0 ++ u :: rest)).length) : Bool) = true := by
    rw [bne_iff_ne]
    simp only [List.length_cons, List.length_append]
    omega
  rw [List.cons_append]
  rw [parseLoop]
  rw [List.cons_append] at hli
  simp only [hc, Bool.or_true, Bool.not_true, Bool.false_eq_true, if_false, hli, hudot,
    hspan, hpre, Bool.false_and, List.isEmpty_cons, hu]
  rw [if_neg (by omega : ¬ digitsVal 0 (c :: ds0) > 9223372036854775808 / unit)]
  simp only [gt_iff_lt, lt_self_iff_false, if_false, decide_eq_true_eq, false_and,
    Bool.and_eq_true, Bool.false_eq_true]
  rw [if_neg (by omega : ¬ d + digitsVal 0 (c :: ds0) * unit > 9223372036854775808)]

theorem parseDuration_hms (hd md sd : List Char)
    (h1 : ∀ c ∈ hd, c.isDigit = true) (h2 : ∀ c ∈ md, c.isDigit = true)
    (h3 : ∀ c ∈ sd, c.isDigit = true)
    (n1 : hd ≠ []) (n2 : md ≠ []) (n3 : sd ≠ [])
    (hb : digitsVal 0 hd * 3600 + digitsVal 0 md * 60 + digitsVal 0 sd ≤ 9223372036) :
    parseDuration (hd ++ 'h' :: (md ++ 'm' :: (sd ++ ['s']))) =
      .ok (((digitsVal 0 hd * 3600 + digitsVal 0 md * 60 + digitsVal 0 sd) *
        1000000000 : Nat)) := by
  obtain ⟨c0, hd0, rfl⟩ : ∃ c h, hd = c :: h := by
    cases hd with
    | nil => exact absurd rfl n1
    | cons a b => exact ⟨a, b, rfl⟩
  obtain ⟨c1, md0, rfl⟩ : ∃ c h, md = c :: h := by
    cases md with
    | nil => exact absurd rfl n2
    | cons a b => exact ⟨a, b, rfl⟩
  obtain ⟨c2, sd0, rfl⟩ : ∃ c h, sd = c :: h := by
    cases sd with
    | nil => exact absurd rfl n3
    | cons a b => exact ⟨a, b, rfl⟩
  have hc0 : c0.isDigit = true := h1 c0 (by simp)
  have hc1 : c1.isDigit = true := h2 c1 (by simp)
  have hc2 : c2.isDigit = true := h3 c2 (by simp)
  have hminus : ¬ c0 = '-' := by
    intro hh; rw [hh] at hc0; exact absurd hc0 (by decide)
  have hplus : ¬ c0 = '+' := by
    intro hh; rw [hh] at hc0; exact absurd hc0 (by decide)
  have e1 : (9223372036854775808 : Nat) / 3600000000000 = 2562047 := by norm_num
  have e2 : (9223372036854775808 : Nat) / 60000000000 = 153722867 := by norm_num
  have e3 : (9223372036854775808 : Nat) / 1000000000 = 9223372036 := by norm_num
  have hv1 : digitsVal 0 (c0 :: hd0) ≤ 9223372036854775808 / 3600000000000 := by
    rw [e1]; omega
  have hv2 : digitsVal 0 (c1 :: md0) ≤ 9223372036854775808 / 60000000000 := by
    rw [e2]; omega
  have hv3 : digitsVal 0 (c2 :: sd0) ≤ 9223372036854775808 / 1000000000 := by
    rw [e3]; omega
  have hdd1 : 0 + digitsVal 0 (c0 :: hd0) * 3600000000000 ≤ 9223372036854775808 := by
    omega
  have hdd2 : (0 + digitsVal 0 (c0 :: hd0) * 3600000000000) +
      digitsVal 0 (c1 :: md0) * 60000000000 ≤ 9223372036854775808 := by omega
  have hdd3 : ((0 + digitsVal 0 (c0 :: hd0) * 3600000000000) +
      digitsVal 0 (c1 :: md0) * 60000000000) +
      digitsVal 0 (c2 :: sd0) * 1000000000 ≤ 9223372036854775808 := by omega
  obtain ⟨k, hk⟩ : ∃ k,
      ((c0 :: hd0) ++ 'h' :: ((c1 :: md0) ++ 'm' :: ((c2 :: sd0) ++ ['s']))).length + 1
        = (((k + 1) + 1) + 1) + 1 := by
    refine ⟨((c0 :: hd0) ++ 'h' :: ((c1 :: md0) ++ 'm' :: ((c2 :: sd0) ++ ['s']))).length
      - 3, ?_⟩
    simp only [List.length_cons, List.length_append]
    omega
  simp only [parseDuration, List.cons_append, hminus, hplus, if_false]
  rw [if_neg (by simp), if_neg (by simp)]
  rw [show ((c0 :: (hd0 ++ 'h' :: (c1 :: (md0 ++ 'm' :: (c2 :: (sd0 ++ ['s']))))))).length + 1
      = (((k + 1) + 1) + 1) + 1 by simpa using hk]
  rw [show (c0 :: (hd0 ++ 'h' :: (c1 :: (md0 ++ 'm' :: (c2 :: (sd0 ++ ['s']))))))
      = (c0 :: hd0) ++ 'h' :: ((c1 :: md0) ++ 'm' :: ((c2 :: sd0) ++ ['s'])) by simp]
  rw [parseLoop_step (((k + 1) + 1) + 1) 0 (c0 :: hd0) 'h' 3600000000000
      ((c1 :: md0) ++ 'm' :: ((c2 :: sd0) ++ ['s'])) h1 (by simp) (by decide) (by decide)
      (by decide)
      (Or.inr ⟨c1, md0 ++ 'm' :: ((c2 :: sd0) ++ ['s']), by simp, Or.inl hc1⟩)
      hv1 hdd1 (by norm_num)]
  rw [parseLoop_step ((k + 1) + 1) _ (c1 :: md0) 'm' 60000000000
      ((c2 :: sd0) ++ ['s']) h2 (by simp) (by decide) (by decide) (by decide)
      (Or.inr ⟨c2, sd0 ++ ['s'], by simp, Or.inl hc2⟩)
      hv2 hdd2 (by norm_num)]
  rw [parseLoop_step (k + 1) _ (c2 :: sd0) 's' 1000000000 [] h3 (by simp) (by decide)
      (by decide) (by decide) (Or.inl rfl) hv3 hdd3 (by norm_num)]
  rw [parseLoop]
  dsimp only
  rw [if_neg (by omega :
    ¬ ((0 + digitsVal 0 (c0 :: hd0) * 3600000000000) +
       digitsVal 0 (c1 :: md0) * 60000000000) +
       digitsVal 0 (c2 :: sd0) * 1000000000 > 9223372036854775807)]
  push_cast
  ring_nf

/-! ## `Duration.UnmarshalJSON` characterizations -/

theorem unmarshal_hms (hd md sd : List Char)
    (h1 : ∀ c ∈ hd, c.isDigit = true) (h2 : ∀ c ∈ md, c.isDigit = true)
    (h3 : ∀ c ∈ sd, c.isDigit = true)
    (n1 : hd ≠ []) (n2 : md ≠ []) (n3 : sd ≠ [])
    (hb : digitsVal 0 hd * 3600 + digitsVal 0 md * 60 + digitsVal 0 sd ≤ 9223372036) :
    Duration.UnmarshalJSON (.str ⟨hd ++ ':' :: (md ++ ':' :: sd)⟩) =
      .ok (((digitsVal 0 hd * 3600 + digitsVal 0 md * 60 + digitsVal 0 sd) *
        1000000000 : Nat)) := by
  have hch : ':' ∉ hd := fun hmem => absurd (h1 ':' hmem) (by decide)
  have hcm : ':' ∉ md := fun hmem => absurd (h2 ':' hmem) (by decide)
  have hsplit : splitN3 (hd ++ ':' :: (md ++ ':' :: sd)) = [hd, md, sd] :=
    splitN3_three hd md sd hch hcm
  have hshape : ((((hd ++ ['h']) ++ md) ++ ['m']) ++ sd) ++ ['s'] =
      hd ++ 'h' :: (md ++ 'm' :: (sd ++ ['s'])) := by simp
  unfold Duration.UnmarshalJSON
  dsimp only
  rw [hsplit]
  dsimp only
  rw [hshape, parseDuration_hms hd md sd h1 h2 h3 n1 n2 n3 hb]

theorem unmarshal_badFormat (s : String) (h : s.data.count ':' < 2) :
    Duration.UnmarshalJSON (.str s) = .error .badFormat := by
  rcases splitN3_short s.data h with hs | ⟨a, b, hs⟩ <;>
    · unfold Duration.UnmarshalJSON
      dsimp only
      rw [hs]

theorem unmarshal_notString (j : Json) (h : ∀ s, j ≠ .str s) :
    Duration.UnmarshalJSON j = .error .notString := by
  cases j <;> first | rfl | exact absurd rfl (h _)

/-! # Claim theorems -/

/-- C3 (counterexample): the claim as stated is false on the code.  The
"valid" string `"2562048:00:00"` (unbounded hours, two-digit minutes and
seconds) is rejected — 2562048 hours overflow `int64` nanoseconds — and the
string `"1:2h3:4"`, whose middle part `"2h3"` is not numeric, is accepted
(it is rewritten to `"1h2h3m4s"`, which Go's duration parser accepts as
1h + 2h + 3m + 4s = 10984 s). -/
theorem claim_C3_counterexample :
    Duration.UnmarshalJSON (.str "2562048:00:00") = .error (.parse .invalid) ∧
    Duration.UnmarshalJSON (.str "1:2h3:4") = .ok 10984000000000 :=
  ⟨rfl, rfl⟩

/-- C3 (amended): for every `"H:MM:SS"` wire string whose parts are decimal
digit runs with `MM`, `SS` two-digit values at most 59 and whose total
`H*3600 + M*60 + S` seconds is at most 9223372036 (so the duration fits in
`int64` nanoseconds), the decoder succeeds with exactly that many seconds
(`value * 10^9` nanoseconds); every string with fewer than two colons fails
with the format error; every non-string JSON shape fails with the
invalid-duration error. -/
theorem claim_C3_amended :
    (∀ hd md sd : List Char,
      (∀ c ∈ hd, c.isDigit = true) → (∀ c ∈ md, c.isDigit = true) →
      (∀ c ∈ sd, c.isDigit = true) →
      hd ≠ [] → md.length = 2 → sd.length = 2 →
      digitsVal 0 md ≤ 59 → digitsVal 0 sd ≤ 59 →
      digitsVal 0 hd * 3600 + digitsVal 0 md * 60 + digitsVal 0 sd ≤ 9223372036 →
      Duration.UnmarshalJSON (.str ⟨hd ++ ':' :: (md ++ ':' :: sd)⟩) =
        .ok (((digitsVal 0 hd * 3600 + digitsVal 0 md * 60 + digitsVal 0 sd) *
          1000000000 : Nat))) ∧
    (∀ s : String, s.data.count ':' < 2 →
      Duration.UnmarshalJSON (.str s) = .error .badFormat) ∧
    (∀ j : Json, (∀ s, j ≠ .str s) → Duration.UnmarshalJSON j = .error .notString) := by
  refine ⟨fun hd md sd h1 h2 h3 hn1 hl2 hl3 _ _ hb => ?_,
    unmarshal_badFormat, unmarshal_notString⟩
  have n2 : md ≠ [] := by intro hh; rw [hh] at hl2; simp at hl2
  have n3 : sd ≠ [] := by intro hh; rw [hh] at hl3; simp at hl3
  exact unmarshal_hms hd md sd h1 h2 h3 hn1 n2 n3 hb

/-- C3 witness: `"1:02:03"` decodes to 3723 s. -/
theorem claim_C3_witness :
    Duration.UnmarshalJSON (.str ⟨['1'] ++ ':' :: (['0', '2'] ++ ':' :: ['0', '3'])⟩) =
      .ok 3723000000000 := by
  exact claim_C3_amended.1 ['1'] ['0', '2'] ['0', '3'] (by decide) (by decide) (by decide)
    (by decide) (by decide) (by decide) (by decide) (by decide) (by decide)

/-- C10: the decoder does not enforce the two-digit 00–59 format: every
three-part string of decimal digit runs (single-digit, multi-digit or
out-of-range components alike) decodes to H hours + M minutes + S seconds
(as long as the total fits in `int64` nanoseconds); concretely `"1:75:00"`
decodes to 8100 s, `"1:2:3"` to 3723 s, and the fractional `"1:2.5:3"` is
also accepted, as 3753 s. -/
theorem claim_C10 :
    (∀ hd md sd : List Char,
      (∀ c ∈ hd, c.isDigit = true) → (∀ c ∈ md, c.isDigit = true) →
      (∀ c ∈ sd, c.isDigit = true) →
      hd ≠ [] → md ≠ [] → sd ≠ [] →
      digitsVal 0 hd * 3600 + digitsVal 0 md * 60 + digitsVal 0 sd ≤ 9223372036 →
      Duration.UnmarshalJSON (.str ⟨hd ++ ':' :: (md ++ ':' :: sd)⟩) =
        .ok (((digitsVal 0 hd * 3600 + digitsVal 0 md * 60 + digitsVal 0 sd) *
          1000000000 : Nat))) ∧
    Duration.UnmarshalJSON (.str "1:75:00") = .ok 8100000000000 ∧
    Duration.UnmarshalJSON (.str "1:2:3") = .ok 3723000000000 ∧
    Duration.UnmarshalJSON (.str "1:2.5:3") = .ok 3753000000000 :=
  ⟨unmarshal_hms, rfl, rfl, rfl⟩

/-- C10 witness: `"9:8:7"` decodes to 9 h + 8 min + 7 s = 32887 s. -/
theorem claim_C10_witness :
    Duration.UnmarshalJSON (.str ⟨['9'] ++ ':' :: (['8'] ++ ':' :: ['7'])⟩) =
      .ok 32887000000000 := by
  exact claim_C10.1 ['9'] ['8'] ['7'] (by decide) (by decide) (by decide)
    (by decide) (by decide) (by decide) (by decide)

/-! ## The player reconciliation loop -/

theorem playersLoopP_map_some (now : Int) (ps : List playerStatus) :
    ∀ st : PState, playersLoopP now st (ps.map Option.some) =
      (false, ps.foldl (playersStep now) st) := by
  induction ps with
  | nil => intro st; rfl
  | cons p t ih => intro st; simpa [playersLoopP] using ih (playersStep now st p)

theorem playersStep_new (now : Int) (st : PState) (p : playerStatus)
    (hl : lookupA st.sess p.ClientID = none) :
    playersStep now st p =
      { sess := st.sess ++ [(p.ClientID, now)]
        existing := st.existing
        gauge := setA st.gauge (p.Name, formatInt p.ClientID)
          ((durSecondsFloor (now - now) : Int) : Rat) } := by
  simp [playersStep, hl]

theorem playersStep_tracked (now : Int) (st : PState) (p : playerStatus) (joined : Int)
    (hl : lookupA st.sess p.ClientID = some joined) :
    playersStep now st p =
      { sess := st.sess
        existing := st.existing.filter (fun k => k ≠ p.ClientID)
        gauge := setA st.gauge (p.Name, formatInt p.ClientID)
          ((durSecondsFloor (now - joined) : Int) : Rat) } := by
  simp [playersStep, hl]

theorem playersFold_inv (m : List (Int × Int)) (now : Int) (ps : List playerStatus) :
    ∀ (seen : List playerStatus) (st : PState),
    (mapKeys st.sess).Nodup →
    (∀ id : Int, lookupA st.sess id =
      if id ∈ seen.map playerStatus.ClientID ∧ lookupA m id = none
      then some now else lookupA m id) →
    (∀ id : Int, id ∈ st.existing ↔
      id ∈ mapKeys m ∧ id ∉ seen.map playerStatus.ClientID) →
    (∀ p ∈ seen, lookupA st.gauge (p.Name, formatInt p.ClientID) =
      some ((durSecondsFloor (now - (lookupA m p.ClientID).getD now) : Int) : Rat)) →
    (∀ lbl v, lookupA st.gauge lbl = some v →
      ∃ p ∈ seen, lbl = (p.Name, formatInt p.ClientID)) →
    ((mapKeys (ps.foldl (playersStep now) st).sess).Nodup ∧
     (∀ id : Int, lookupA (ps.foldl (playersStep now) st).sess id =
       if id ∈ (seen ++ ps).map playerStatus.ClientID ∧ lookupA m id = none
       then some now else lookupA m id) ∧
     (∀ id : Int, id ∈ (ps.foldl (playersStep now) st).existing ↔
       id ∈ mapKeys m ∧ id ∉ (seen ++ ps).map playerStatus.ClientID) ∧
     (∀ p ∈ seen ++ ps, lookupA (ps.foldl (playersStep now) st).gauge
         (p.Name, formatInt p.ClientID) =
       some ((durSecondsFloor (now - (lookupA m p.ClientID).getD now) : Int) : Rat)) ∧
     (∀ lbl v, lookupA (ps.foldl (playersStep now) st).gauge lbl = some v →
       ∃ p ∈ seen ++ ps, lbl = (p.Name, formatInt p.ClientID))) := by
  induction ps with
  | nil =>
    intro seen st hnd hsess hex hg hdom
    simp only [List.foldl_nil, List.append_nil]
    exact ⟨hnd, hsess, hex, hg, hdom⟩
  | cons p ps' ih =>
    intro seen st hnd hsess hex hg hdom
    have hfold : (p :: ps').foldl (playersStep now) st =
        ps'.foldl (playersStep now) (playersStep now st p) := rfl
    rw [hfold]
    have hmm : ∀ id : Int, id ≠ p.ClientID →
        ((id ∈ (seen ++ [p]).map playerStatus.ClientID) ↔
          (id ∈ seen.map playerStatus.ClientID)) := by
      intro id hid
      simp only [List.map_append, List.mem_append, List.map_cons, List.map_nil,
        List.mem_singleton]
      constructor
      · rintro (hh | hh)
        · exact hh
        · exact absurd hh hid
      · exact Or.inl
    cases hl : lookupA st.sess p.ClientID with
    | none =>
      -- a client ID new to the session map: fresh record with join time `now`
      have hm : lookupA m p.ClientID = none := by
        have hs := hsess p.ClientID
        rw [hl] at hs
        by_cases hc : p.ClientID ∈ seen.map playerStatus.ClientID ∧
            lookupA m p.ClientID = none
        · exact hc.2
        · rw [if_neg hc] at hs; exact hs.symm
      have hns : p.ClientID ∉ seen.map playerStatus.ClientID := by
        intro hmem
        have hs := hsess p.ClientID
        rw [hl, if_pos ⟨hmem, hm⟩] at hs
        cases hs
      have hkm : p.ClientID ∉ mapKeys m := (lookupA_eq_none_iff m _).mp hm
      have hks : p.ClientID ∉ mapKeys st.sess := (lookupA_eq_none_iff _ _).mp hl
      rw [playersStep_new now st p hl]
      have hnd' : (mapKeys (st.sess ++ [(p.ClientID, now)])).Nodup := by
        rw [mapKeys_append_single]
        simp [List.nodup_append, hnd, hks]
      have hsess' : ∀ id : Int, lookupA (st.sess ++ [(p.ClientID, now)]) id =
          if id ∈ (seen ++ [p]).map playerStatus.ClientID ∧ lookupA m id = none
          then some now else lookupA m id := by
        intro id
        rw [lookupA_append_single]
        by_cases hid : id = p.ClientID
        · subst hid
          rw [hl, hm]
          simp
        · by_cases hc : id ∈ seen.map playerStatus.ClientID ∧ lookupA m id = none
          · rw [hsess id, if_pos hc]
            dsimp only
            rw [if_pos ⟨(hmm id hid).mpr hc.1, hc.2⟩]
          · rw [hsess id, if_neg hc]
            cases hml : lookupA m id with
            | some w => simp
            | none =>
              have hnm : id ∉ seen.map playerStatus.ClientID := fun hh => hc ⟨hh, hml⟩
              dsimp only
              rw [if_neg (fun hh : p.ClientID = id => hid hh.symm)]
              rw [if_neg (fun hh => hnm ((hmm id hid).mp hh.1))]
      have hex' : ∀ id : Int, id ∈ st.existing ↔
          id ∈ mapKeys m ∧ id ∉ (seen ++ [p]).map playerStatus.ClientID := by
        intro id
        rw [hex id]
        constructor
        · rintro ⟨h1, h2⟩
          refine ⟨h1, ?_⟩
          simp only [List.map_append, List.mem_append, List.map_cons, List.map_nil,
            List.mem_singleton]
          rintro (hh | hh)
          · exact h2 hh
          · exact hkm (hh ▸ h1)
        · rintro ⟨h1, h2⟩
          exact ⟨h1, fun hh => h2 (by simp [hh])⟩
      have hg' : ∀ q ∈ seen ++ [p],
          lookupA (setA st.gauge (p.Name, formatInt p.ClientID)
              ((durSecondsFloor (now - now) : Int) : Rat))
            (q.Name, formatInt q.ClientID) =
          some ((durSecondsFloor (now - (lookupA m q.ClientID).getD now) : Int) : Rat) := by
        intro q hq
        rw [List.mem_append, List.mem_singleton] at hq
        by_cases heq : ((p.Name, formatInt p.ClientID) : String × String) =
            (q.Name, formatInt q.ClientID)
        · rw [lookupA_setA, if_pos heq]
          have hqc : q.ClientID = p.ClientID :=
            (formatInt_inj (congrArg Prod.snd heq)).symm
          rw [hqc, hm]
          rfl
        · rw [lookupA_setA, if_neg heq]
          rcases hq with hq | rfl
          · exact hg q hq
          · exact absurd rfl heq
      have hdom' : ∀ lbl v,
          lookupA (setA st.gauge (p.Name, formatInt p.ClientID)
              ((durSecondsFloor (now - now) : Int) : Rat)) lbl = some v →
          ∃ q ∈ seen ++ [p], lbl = (q.Name, formatInt q.ClientID) := by
        intro lbl v hlv
        rw [lookupA_setA] at hlv
        by_cases heq : ((p.Name, formatInt p.ClientID) : String × String) = lbl
        · refine ⟨p, ?_, heq.symm⟩
          simp
        · rw [if_neg heq] at hlv
          obtain ⟨q, hq, rfl⟩ := hdom lbl v hlv
          refine ⟨q, ?_, rfl⟩
          simp [hq]
      have hmain := ih (seen ++ [p])
        { sess := st.sess ++ [(p.ClientID, now)]
          existing := st.existing
          gauge := setA st.gauge (p.Name, formatInt p.ClientID)
            ((durSecondsFloor (now - now) : Int) : Rat) } hnd' hsess' hex' hg' hdom'
      simpa only [List.append_assoc, List.singleton_append] using hmain
    | some joined =>
      -- a tracked client ID: join time kept, removed from `existingIds`
      have hjv : joined = (lookupA m p.ClientID).getD now := by
        have hs := hsess p.ClientID
        rw [hl] at hs
        cases hml : lookupA m p.ClientID with
        | none =>
          rw [hml] at hs
          by_cases hmem : p.ClientID ∈ seen.map playerStatus.ClientID
          · rw [if_pos ⟨hmem, rfl⟩] at hs
            simp only [Option.some.injEq] at hs
            simp [hs]
          · rw [if_neg (by simp [hmem])] at hs
            cases hs
        | some t =>
          rw [hml] at hs
          rw [if_neg (by simp)] at hs
          simp only [Option.some.injEq] at hs
          simp [hs]
      rw [playersStep_tracked now st p joined hl]
      have hnd' : (mapKeys st.sess).Nodup := hnd
      have hsess' : ∀ id : Int, lookupA st.sess id =
          if id ∈ (seen ++ [p]).map playerStatus.ClientID ∧ lookupA m id = none
          then some now else lookupA m id := by
        intro id
        by_cases hid : id = p.ClientID
        · subst hid
          rw [hl]
          cases hml : lookupA m p.ClientID with
          | none =>
            rw [if_pos ⟨by simp, rfl⟩]
            rw [hml] at hjv
            simp only [Option.getD_none] at hjv
            rw [hjv]
          | some t =>
            rw [if_neg (by simp)]
            rw [hml] at hjv
            simp only [Option.getD_some] at hjv
            rw [hjv]
        · by_cases hc : id ∈ seen.map playerStatus.ClientID ∧ lookupA m id = none
          · rw [hsess id, if_pos hc, if_pos ⟨(hmm id hid).mpr hc.1, hc.2⟩]
          · rw [hsess id, if_neg hc, if_neg (fun hh => hc ⟨(hmm id hid).mp hh.1, hh.2⟩)]
      have hex' : ∀ id : Int,
          id ∈ st.existing.filter (fun k => k ≠ p.ClientID) ↔
          id ∈ mapKeys m ∧ id ∉ (seen ++ [p]).map playerStatus.ClientID := by
        intro id
        simp only [List.mem_filter, hex id, List.map_append, List.mem_append,
          List.map_cons, List.map_nil, List.mem_singleton, decide_eq_true_eq]
        tauto
      have hg' : ∀ q ∈ seen ++ [p],
          lookupA (setA st.gauge (p.Name, formatInt p.ClientID)
              ((durSecondsFloor (now - joined) : Int) : Rat))
            (q.Name, formatInt q.ClientID) =
          some ((durSecondsFloor (now - (lookupA m q.ClientID).getD now) : Int) : Rat) := by
        intro q hq
        rw [List.mem_append, List.mem_singleton] at hq
        by_cases heq : ((p.Name, formatInt p.ClientID) : String × String) =
            (q.Name, formatInt q.ClientID)
        · rw [lookupA_setA, if_pos heq]
          have hqc : q.ClientID = p.ClientID :=
            (formatInt_inj (congrArg Prod.snd heq)).symm
          rw [hqc, ← hjv]
        · rw [lookupA_setA, if_neg heq]
          rcases hq with hq | rfl
          · exact hg q hq
          · exact absurd rfl heq
      have hdom' : ∀ lbl v,
          lookupA (setA st.gauge (p.Name, formatInt p.ClientID)
              ((durSecondsFloor (now - joined) : Int) : Rat)) lbl = some v →
          ∃ q ∈ seen ++ [p], lbl = (q.Name, formatInt q.ClientID) := by
        intro lbl v hlv
        rw [lookupA_setA] at hlv
        by_cases heq : ((p.Name, formatInt p.ClientID) : String × String) = lbl
        · refine ⟨p, ?_, heq.symm⟩
          simp
        · rw [if_neg heq] at hlv
          obtain ⟨q, hq, rfl⟩ := hdom lbl v hlv
          refine ⟨q, ?_, rfl⟩
          simp [hq]
      have hmain := ih (seen ++ [p])
        { sess := st.sess
          existing := st.existing.filter (fun k => k ≠ p.ClientID)
          gauge := setA st.gauge (p.Name, formatInt p.ClientID)
            ((durSecondsFloor (now - joined) : Int) : Rat) } hnd' hsess' hex' hg' hdom'
      simpa only [List.append_assoc, List.singleton_append] using hmain

theorem doGetPlayersOnline_ok (e : Env) (ps : List playerStatus) (st : SysState)
    (hp : e.players = .ok (ps.map Option.some)) :
    doGetPlayersOnline e st =
      (.ok, { st with
        metricPlayersOnline := (ps.foldl (playersStep e.now)
          ⟨st.playersOnline, mapKeys st.playersOnline, []⟩).gauge
        playersOnline := eraseKeys
          (ps.foldl (playersStep e.now)
            ⟨st.playersOnline, mapKeys st.playersOnline, []⟩).sess
          (ps.foldl (playersStep e.now)
            ⟨st.playersOnline, mapKeys st.playersOnline, []⟩).existing }) := by
  unfold doGetPlayersOnline
  rw [hp]
  dsimp only
  rw [playersLoopP_map_some e.now ps ⟨st.playersOnline, mapKeys st.playersOnline, []⟩]
  simp

/-- C1: after every successful run of the players task, the session map holds
exactly one record per client ID in the fetched list — nodup keys, with
lookup giving the old join time for already-tracked IDs and the capture time
`now` for new ones — and no record for any other ID (eviction in the same
pass). -/
theorem claim_C1 (e : Env) (ps : List playerStatus) (st : SysState)
    (hp : e.players = .ok (ps.map Option.some))
    (hnd : (mapKeys st.playersOnline).Nodup) :
    (doGetPlayersOnline e st).1 = .ok ∧
    (mapKeys (doGetPlayersOnline e st).2.playersOnline).Nodup ∧
    (∀ id : Int, lookupA (doGetPlayersOnline e st).2.playersOnline id =
      if id ∈ ps.map playerStatus.ClientID
      then some ((lookupA st.playersOnline id).getD e.now) else none) := by
  obtain ⟨hA, hB, hC, _, _⟩ :=
    playersFold_inv st.playersOnline e.now ps []
      ⟨st.playersOnline, mapKeys st.playersOnline, []⟩
      hnd (by intro id; simp) (by intro id; simp)
      (by intro q hq; exact absurd hq (List.not_mem_nil q))
      (by intro lbl v hlv; simp [lookupA] at hlv)
  simp only [List.nil_append] at hB hC
  rw [doGetPlayersOnline_ok e ps st hp]
  refine ⟨rfl, nodup_eraseKeys _ _ hA, ?_⟩
  intro id
  dsimp only
  rw [lookupA_eraseKeys]
  by_cases hmem : id ∈ ps.map playerStatus.ClientID
  · have hnotex : id ∉ (ps.foldl (playersStep e.now)
        ⟨st.playersOnline, mapKeys st.playersOnline, []⟩).existing := by
      rw [hC id]
      rintro ⟨h1, h2⟩
      exact h2 hmem
    rw [if_neg hnotex, hB id, if_pos hmem]
    cases hm : lookupA st.playersOnline id with
    | none => rw [if_pos ⟨hmem, rfl⟩]; simp
    | some t => rw [if_neg (by simp)]; simp
  · by_cases hkm : id ∈ mapKeys st.playersOnline
    · have hexid : id ∈ (ps.foldl (playersStep e.now)
          ⟨st.playersOnline, mapKeys st.playersOnline, []⟩).existing :=
        (hC id).mpr ⟨hkm, hmem⟩
      rw [if_pos hexid, if_neg hmem]
    · have hnotex : id ∉ (ps.foldl (playersStep e.now)
          ⟨st.playersOnline, mapKeys st.playersOnline, []⟩).existing := by
        intro hh
        exact hkm ((hC id).mp hh).1
      rw [if_neg hnotex, hB id, if_neg (fun hh => hmem hh.1), if_neg hmem]
      exact (lookupA_eq_none_iff _ _).mpr hkm

/-- C1 witness: a poll `[{id 5, name "A"}]` at time 10^9 against a prior map
tracking only id 7 yields a session map with exactly id 5 (join time 10^9)
and no record for id 7. -/
theorem claim_C1_witness :
    (doGetPlayersOnline envC1 stC1).1 = .ok ∧
    lookupA (doGetPlayersOnline envC1 stC1).2.playersOnline 5 = some 1000000000 ∧
    lookupA (doGetPlayersOnline envC1 stC1).2.playersOnline 7 = none := by
  have h := claim_C1 envC1 [⟨5, "A", 0⟩] stC1 rfl (by decide)
  refine ⟨h.1, ?_, ?_⟩
  · have h5 := h.2.2 5
    rw [h5]
    decide
  · have h7 := h.2.2 7
    rw [h7]
    decide

/-- C2: each successful run of the players task rebuilds the labeled
players-online gauge from scratch: every player in the current list gets
exactly the sample `(Name, FormatInt(ClientID)) ↦ ⌊(now − join)/10^9⌋`, and
every sample in the resulting gauge belongs to a player of the current list —
regardless of what the gauge held before (the `Reset()`). -/
theorem claim_C2 (e : Env) (ps : List playerStatus) (st : SysState)
    (hp : e.players = .ok (ps.map Option.some))
    (hnd : (mapKeys st.playersOnline).Nodup) :
    (doGetPlayersOnline e st).1 = .ok ∧
    (∀ p ∈ ps, lookupA (doGetPlayersOnline e st).2.metricPlayersOnline
        (p.Name, formatInt p.ClientID) =
      some ((durSecondsFloor
        (e.now - (lookupA st.playersOnline p.ClientID).getD e.now) : Int) : Rat)) ∧
    (∀ lbl v, lookupA (doGetPlayersOnline e st).2.metricPlayersOnline lbl = some v →
      ∃ p ∈ ps, lbl = (p.Name, formatInt p.ClientID)) := by
  obtain ⟨_, _, _, hD, hE⟩ :=
    playersFold_inv st.playersOnline e.now ps []
      ⟨st.playersOnline, mapKeys st.playersOnline, []⟩
      hnd (by intro id; simp) (by intro id; simp)
      (by intro q hq; exact absurd hq (List.not_mem_nil q))
      (by intro lbl v hlv; simp [lookupA] at hlv)
  simp only [List.nil_append] at hD hE
  rw [doGetPlayersOnline_ok e ps st hp]
  exact ⟨rfl, hD, hE⟩

/-- C2 witness: the same single-player poll publishes exactly the sample
`("A", "5") ↦ 0` (and id 7's stale sample is gone since the gauge is rebuilt
from the current list only). -/
theorem claim_C2_witness :
    lookupA (doGetPlayersOnline envC1 stC1).2.metricPlayersOnline
      ("A", formatInt 5) = some ((0 : Int) : Rat) ∧
    lookupA (doGetPlayersOnline envC1 stC1).2.metricPlayersOnline
      ("B", formatInt 7) = none := by
  have h := claim_C2 envC1 [⟨5, "A", 0⟩] stC1 rfl (by decide)
  constructor
  · have h5 := h.2.1 ⟨5, "A", 0⟩ (by simp)
    rw [h5]
    decide
  · cases hv : lookupA (doGetPlayersOnline envC1 stC1).2.metricPlayersOnline
        ("B", formatInt 7) with
    | none => rfl
    | some v =>
      obtain ⟨q, hq, hlbl⟩ := h.2.2 ("B", formatInt 7) v hv
      simp only [List.mem_singleton] at hq
      subst hq
      exact absurd (congrArg Prod.fst hlbl) (by decide)

/-! ## The worlds task -/

theorem worldsLoop_preserve (dtl : String → Except ReqErr (Option worldStatus))
    (ids : List String) :
    ∀ (g : List (String × Rat)) (n : String),
    (∀ id ∈ ids, ∀ w : worldStatus, dtl id = .ok (some w) → w.Name ≠ n) →
    lookupA (worldsLoop dtl g ids).2 n = lookupA g n := by
  induction ids with
  | nil => intro g n _; rfl
  | cons id rest ih =>
    intro g n hno
    cases hd : dtl id with
    | error e => simp [worldsLoop, hd]
    | ok ow =>
      cases ow with
      | none => simp [worldsLoop, hd]
      | some w =>
        have hstep : worldsLoop dtl g (id :: rest) =
            worldsLoop dtl (setA g w.Name (w.SizeKb : Rat)) rest := by
          simp [worldsLoop, hd]
        rw [hstep, ih (setA g w.Name (w.SizeKb : Rat)) n
          (fun i hi => hno i (by simp [hi]))]
        rw [lookupA_setA, if_neg (hno id (by simp) w hd)]

theorem worldsLoop_all_ok (dtl : String → Except ReqErr (Option worldStatus))
    (ids : List String) :
    ∀ g : List (String × Rat),
    (∀ id ∈ ids, ∃ w : worldStatus, dtl id = .ok (some w)) →
    (worldsLoop dtl g ids).1 = .ok := by
  induction ids with
  | nil => intro g _; rfl
  | cons id rest ih =>
    intro g hok
    obtain ⟨w, hw⟩ := hok id (by simp)
    have hstep : worldsLoop dtl g (id :: rest) =
        worldsLoop dtl (setA g w.Name (w.SizeKb : Rat)) rest := by
      simp [worldsLoop, hw]
    rw [hstep]
    exact ih _ (fun i hi => hok i (by simp [hi]))

theorem worldsLoop_errorMid (dtl : String → Except ReqErr (Option worldStatus))
    (ids1 : List String) :
    ∀ (g : List (String × Rat)) (id : String) (ids2 : List String) (er : ReqErr),
    (∀ i ∈ ids1, ∃ w : worldStatus, dtl i = .ok (some w)) →
    dtl id = .error er →
    worldsLoop dtl g (ids1 ++ id :: ids2) = (.err er, (worldsLoop dtl g ids1).2) := by
  induction ids1 with
  | nil =>
    intro g id ids2 er _ herr
    simp [worldsLoop, herr]
  | cons i rest ih =>
    intro g id ids2 er hok herr
    obtain ⟨w, hw⟩ := hok i (by simp)
    have h1 : worldsLoop dtl g ((i :: rest) ++ id :: ids2) =
        worldsLoop dtl (setA g w.Name (w.SizeKb : Rat)) (rest ++ id :: ids2) := by
      simp [worldsLoop, hw]
    have h2 : worldsLoop dtl g (i :: rest) =
        worldsLoop dtl (setA g w.Name (w.SizeKb : Rat)) rest := by
      simp [worldsLoop, hw]
    rw [h1, h2]
    exact ih _ id ids2 er (fun j hj => hok j (by simp [hj])) herr

/-- C4 (counterexample): the claim as stated is false on the code.  With a
world list `["a", "b"]` where world `"a"` succeeds (name `"Alpha"`, 100 kB)
and world `"b"`'s detail fetch fails, `doGetWorlds` returns the error but has
already written the `world="Alpha"` sample — the failing task does perform
gauge writes in the failing cycle. -/
theorem claim_C4_counterexample :
    (doGetWorlds envC4 initState).1 = .err .transport ∧
    lookupA (doGetWorlds envC4 initState).2.metricWorldSize "Alpha" =
      some ((100 : Int) : Rat) := by
  constructor <;> decide

/-- C4 (amended): a task failing on its (first) fetch performs no writes at
all — `doServerStatus`, `doGetGridCount`, `doGetBannedCount`, `doGetWorlds`
(list fetch) and `doGetPlayersOnline` (player fetch, so in particular no
session-map mutation) return the error with the state unchanged; but
`doGetWorlds` failing partway through the per-world detail fetches returns
the error with the world-size writes of the successfully processed prefix
already applied. -/
theorem claim_C4_amended :
    (∀ (e : Env) (st : SysState) (er : ReqErr),
      e.serverStatus = .error er → doServerStatus e st = (.err er, st)) ∧
    (∀ (e : Env) (st : SysState) (er : ReqErr),
      e.grids = .error er → doGetGridCount e st = (.err er, st)) ∧
    (∀ (e : Env) (st : SysState) (er : ReqErr),
      e.banned = .error er → doGetBannedCount e st = (.err er, st)) ∧
    (∀ (e : Env) (st : SysState) (er : ReqErr),
      e.worlds = .error er → doGetWorlds e st = (.err er, st)) ∧
    (∀ (e : Env) (st : SysState) (er : ReqErr),
      e.players = .error er → doGetPlayersOnline e st = (.err er, st)) ∧
    (∀ (e : Env) (st : SysState) (ids1 : List String) (id : String)
       (ids2 : List String) (er : ReqErr),
      e.worlds = .ok (ids1 ++ id :: ids2) →
      (∀ i ∈ ids1, ∃ w : worldStatus, e.worldDetail i = .ok (some w)) →
      e.worldDetail id = .error er →
      doGetWorlds e st = (.err er, { st with
        metricWorldSize := (worldsLoop e.worldDetail st.metricWorldSize ids1).2 })) := by
  refine ⟨?_, ?_, ?_, ?_, ?_, ?_⟩
  · intro e st er h; simp [doServerStatus, h]
  · intro e st er h; simp [doGetGridCount, h]
  · intro e st er h; simp [doGetBannedCount, h]
  · intro e st er h; simp [doGetWorlds, h]
  · intro e st er h; simp [doGetPlayersOnline, h]
  · intro e st ids1 id ids2 er hw hok herr
    unfold doGetWorlds
    rw [hw]
    dsimp only
    rw [worldsLoop_errorMid e.worldDetail ids1 st.metricWorldSize id ids2 er hok herr]

/-- C4 witness: the amended claim at the concrete partial-failure fixture —
the returned state carries exactly the prefix writes of `["a"]`. -/
theorem claim_C4_witness :
    doGetWorlds envC4 initState = (.err .transport, { initState with
      metricWorldSize := (worldsLoop envC4.worldDetail initState.metricWorldSize ["a"]).2 }) := by
  refine claim_C4_amended.2.2.2.2.2 envC4 initState ["a"] "b" [] .transport (by decide)
    ?_ (by decide)
  intro i hi
  simp only [List.mem_singleton] at hi
  subst hi
  exact ⟨⟨"Alpha", 100⟩, by decide⟩

/-- C5: the worlds task never clears labeled samples: after a successful run,
any world name not fetched in this run keeps exactly its previous sample; in
the two-poll fixture (first poll `Alpha ↦ 100`, second poll only
`Beta ↦ 50`), the stale `Alpha` sample is still 100 and `Beta` is 50. -/
theorem claim_C5 (e : Env) (st : SysState) (ids : List String)
    (hw : e.worlds = .ok ids)
    (hall : ∀ id ∈ ids, ∃ w : worldStatus, e.worldDetail id = .ok (some w)) :
    ((doGetWorlds e st).1 = .ok ∧
     ∀ n : String,
       (∀ id ∈ ids, ∀ w : worldStatus, e.worldDetail id = .ok (some w) → w.Name ≠ n) →
       lookupA (doGetWorlds e st).2.metricWorldSize n =
         lookupA st.metricWorldSize n) ∧
    (lookupA stC5.metricWorldSize "Alpha" = some ((100 : Int) : Rat) ∧
     lookupA stC5.metricWorldSize "Beta" = some ((50 : Int) : Rat)) := by
  refine ⟨?_, by decide, by decide⟩
  unfold doGetWorlds
  rw [hw]
  dsimp only
  exact ⟨worldsLoop_all_ok e.worldDetail ids st.metricWorldSize hall,
    fun n hno => worldsLoop_preserve e.worldDetail ids st.metricWorldSize n hno⟩

/-- C5 witness: the second poll (only `Beta`) leaves the `Alpha` sample of
the first poll untouched. -/
theorem claim_C5_witness :
    lookupA (doGetWorlds envC5b (doGetWorlds envC5a initState).2).2.metricWorldSize
      "Alpha" = lookupA (doGetWorlds envC5a initState).2.metricWorldSize "Alpha" := by
  have h := claim_C5 envC5b (doGetWorlds envC5a initState).2 ["w2"] (by decide) ?hall
  case hall =>
    intro i hi
    simp only [List.mem_singleton] at hi
    subst hi
    exact ⟨⟨"Beta", 50⟩, by decide⟩
  refine h.1.2 "Alpha" ?_
  intro i hi w hwd
  simp only [List.mem_singleton] at hi
  subst hi
  have he : envC5b.worldDetail "w2" = .ok (some ⟨"Beta", 50⟩) := by decide
  have hwb := he.symm.trans hwd
  simp only [Except.ok.injEq, Option.some.injEq] at hwb
  rw [← hwb]
  decide

/-! ## The cycle loop and the scheduler -/

/-- C6: an error returned by one task never stops the cycle: the loop logs it
and runs the remaining tasks on the state the failing task left behind (only
a panic aborts).  Concretely, in a cycle where the first task
(`doServerStatus`) fails, all five tasks still run and the later tasks update
their own gauges (`grid count = 3` from the fetched list of three grids). -/
theorem claim_C6 :
    (∀ (env : Env) (st : SysState) (ran : List String) (name : String)
       (f : Env → SysState → TaskOut × SysState)
       (rest : List (String × (Env → SysState → TaskOut × SysState)))
       (er : ReqErr) (st1 : SysState),
      f env st = (.err er, st1) →
      cycleAux env st ran ((name, f) :: rest) = cycleAux env st1 (ran ++ [name]) rest) ∧
    ((cycleRun envC6 initState).panicked = false ∧
     (cycleRun envC6 initState).ran = taskNames ∧
     (cycleRun envC6 initState).state.metricGridCount = 3 ∧
     (cycleRun envC6 initState).state.metricBannedCount = 0) := by
  constructor
  · intro env st ran name f rest er st1 h
    simp [cycleAux, h]
  · refine ⟨by decide, by decide, by decide, by decide⟩

/-- C6 witness: with the first task failing on the concrete environment, the
cycle proceeds to the remaining four tasks. -/
theorem claim_C6_witness :
    cycleAux envC6 initState [] metrics =
      cycleAux envC6 initState ["doServerStatus"]
        [("doGetGridCount", doGetGridCount), ("doGetBannedCount", doGetBannedCount),
         ("doGetWorlds", doGetWorlds), ("doGetPlayersOnline", doGetPlayersOnline)] := by
  exact claim_C6.1 envC6 initState [] "doServerStatus" doServerStatus
    [("doGetGridCount", doGetGridCount), ("doGetBannedCount", doGetBannedCount),
     ("doGetWorlds", doGetWorlds), ("doGetPlayersOnline", doGetPlayersOnline)]
    .transport initState (by decide)

theorem cycleAux_ran (env : Env) :
    ∀ (ts : List (String × (Env → SysState → TaskOut × SysState)))
      (st : SysState) (ran : List String),
    (cycleAux env st ran ts).panicked = false →
    (cycleAux env st ran ts).ran = ran ++ ts.map Prod.fst := by
  intro ts
  induction ts with
  | nil => intro st ran _; simp [cycleAux]
  | cons t rest ih =>
    intro st ran hp
    rcases hf : t.2 env st with ⟨out, st1⟩
    cases out with
    | panicked => simp [cycleAux, hf] at hp
    | ok =>
      have hstep : cycleAux env st ran (t :: rest) = cycleAux env st1 (ran ++ [t.1]) rest := by
        simp [cycleAux, hf]
      rw [hstep] at hp ⊢
      rw [ih st1 (ran ++ [t.1]) hp]
      simp
    | err e =>
      have hstep : cycleAux env st ran (t :: rest) = cycleAux env st1 (ran ++ [t.1]) rest := by
        simp [cycleAux, hf]
      rw [hstep] at hp ⊢
      rw [ih st1 (ran ++ [t.1]) hp]
      simp

theorem cycleRun_ran (env : Env) (st : SysState)
    (h : (cycleRun env st).panicked = false) :
    (cycleRun env st).ran = taskNames := by
  have hh := cycleAux_ran env metrics st [] h
  rw [cycleRun, hh]
  rfl

/-- C7: the scheduler runs one full cycle immediately at startup — its five
task events precede any tick event — and then, per tick, exactly one more
full cycle; within every cycle the tasks run in the fixed source order
`doServerStatus, doGetGridCount, doGetBannedCount, doGetWorlds,
doGetPlayersOnline` (as long as the process has not crashed on a panic). -/
theorem claim_C7 (envs : Nat → Env) (n : Nat) (h : schedState envs n ≠ none) :
    schedTrace envs n = fullTrace n := by
  induction n with
  | zero =>
    unfold schedState at h
    by_cases hp : (cycleRun (envs 0) initState).panicked
    · rw [if_pos hp] at h
      exact absurd rfl h
    · unfold schedTrace fullTrace
      rw [cycleRun_ran _ _ (by simpa using hp)]
  | succ n ih =>
    unfold schedState at h
    cases hsn : schedState envs n with
    | none => rw [hsn] at h; exact absurd rfl h
    | some stn =>
      rw [hsn] at h
      dsimp only at h
      by_cases hp : (cycleRun (envs (n + 1)) stn).panicked
      · rw [if_pos hp] at h
        exact absurd rfl h
      · have ht : schedTrace envs (n + 1) = schedTrace envs n ++
            Event.tick :: (cycleRun (envs (n + 1)) stn).ran.map Event.ran := by
          rw [schedTrace, hsn]
        rw [ht, ih (by rw [hsn]; simp), cycleRun_ran _ _ (by simpa using hp)]
        rfl

/-- C7 witness: one tick of an all-errors environment — the trace is the five
tasks in order, a tick, then the five tasks in order again. -/
theorem claim_C7_witness :
    schedTrace (fun _ => baseEnv) 1 = fullTrace 1 :=
  claim_C7 (fun _ => baseEnv) 1 (by decide)

/-- C8: the claim is right and the code is wrong.  A response body `null` for
the server-status endpoint decodes into a nil `*serverStatus` with **no**
decode error (that is how `encoding/json` treats `null` for pointer
destinations), and `doServerStatus` then dereferences the nil pointer at
`status.SimSpeed` and panics, instead of failing with a decode error. -/
theorem claim_C8 :
    serverStatusFetch (.ok ⟨200, .null⟩) = .ok none ∧
    doServerStatus
      { baseEnv with serverStatus := serverStatusFetch (.ok ⟨200, .null⟩) }
      initState = (.panicked, initState) :=
  ⟨rfl, rfl⟩

/-- C9: `makeRequest` never inspects the HTTP status code — for a fixed body
the result is the same under any two status codes — and a 500 response whose
body decodes is treated as success: `doServerStatus` writes the body's values
into the gauges (sim speed 1, member count 5, status 2, uptime 3600 s). -/
theorem claim_C9 :
    (∀ (α : Type) (dec : Json → Except DecodeErr α) (s1 s2 : Nat) (body : Json),
      makeRequest dec (.ok ⟨s1, body⟩) = makeRequest dec (.ok ⟨s2, body⟩)) ∧
    ((doServerStatus
        { baseEnv with serverStatus := serverStatusFetch (.ok ⟨500, body500⟩) }
        initState).1 = .ok ∧
     (doServerStatus
        { baseEnv with serverStatus := serverStatusFetch (.ok ⟨500, body500⟩) }
        initState).2.metricSimSpeed = 1 ∧
     (doServerStatus
        { baseEnv with serverStatus := serverStatusFetch (.ok ⟨500, body500⟩) }
        initState).2.metricPlayerCount = 5 ∧
     (doServerStatus
        { baseEnv with serverStatus := serverStatusFetch (.ok ⟨500, body500⟩) }
        initState).2.metricGameReady = 2 ∧
     (doServerStatus
        { baseEnv with serverStatus := serverStatusFetch (.ok ⟨500, body500⟩) }
        initState).2.metricUptime = 3600) := by
  have hdec : serverStatusFetch (.ok ⟨500, body500⟩) =
      .ok (some ⟨1, 5, 3600000000000, 2⟩) := by decide
  have hrun : doServerStatus
      { baseEnv with serverStatus := serverStatusFetch (.ok ⟨500, body500⟩) }
      initState =
      (.ok, { initState with
        metricSimSpeed := 1
        metricPlayerCount := ((5 : Int) : Rat)
        metricGameReady := ((2 : Int) : Rat)
        metricUptime := ((3600000000000 : Int) : Rat) / 1000000000 }) := by
    simp [doServerStatus, hdec]
  refine ⟨fun α dec s1 s2 body => rfl, ?_, ?_, ?_, ?_, ?_⟩ <;> rw [hrun] <;> norm_num
